import Mathlib

/-!
Verification of the core image pipeline of the repository: the region color
sampler (detectHairColorRGB) and the elliptical alpha compositor
(compositeWithEllipse), shallowly embedded from src/server.js.

Raw image buffers are modelled as JavaScript Buffers: a list of byte values in
row-major RGB order; an out-of-range read yields no value (JS: undefined, whose
arithmetic produces NaN and fails every comparison).  JavaScript floating point
arithmetic is modelled exactly: rational arithmetic for the sampler and the
correction ratios, real arithmetic (sqrt/cos) for the blend weights.
Math.round is modelled by round (both send half-integers up).
-/

namespace Follica

attribute [local semireducible] Rat.add Rat.mul Rat.inv Rat.sub Rat.ofScientific

/-- An RGB color triple with integer channels, as returned by detectHairColorRGB. -/
structure RGB where
  r : ℤ
  g : ℤ
  b : ℤ
deriving DecidableEq, Repr

/-- A scanned pixel record { r, g, b, br } as pushed by the sampler loop. -/
structure Px where
  r : ℕ
  g : ℕ
  b : ℕ
  br : ℚ
deriving DecidableEq, Repr

/-- Brightness of a pixel: (r + g + b) / 3 as in the source. -/
def brightness (r g b : ℕ) : ℚ := ((r : ℚ) + g + b) / 3

/-- The brightness-band filter of detectHairColorRGB: br > 15 && br < 100. -/
def keepPx (r g b : ℕ) : Bool :=
  decide ((15 : ℚ) < brightness r g b) && decide (brightness r g b < 100)

/-- Read the three channel bytes of pixel (x, y) from the raw buffer
(idx = (y * width + x) * 3); any out-of-range read gives none. -/
def readPx (raw : List ℕ) (width x y : ℕ) : Option (ℕ × ℕ × ℕ) :=
  let idx := (y * width + x) * 3
  match raw.get? idx, raw.get? (idx + 1), raw.get? (idx + 2) with
  | some r, some g, some b => some (r, g, b)
  | _, _, _ => none

/-- One row of one scan region: x runs over [xs, xe); a pixel is collected only
when its bytes exist and pass the brightness filter. -/
def scanRegionRow (raw : List ℕ) (width y xs xe : ℕ) : List Px :=
  (List.range' xs (xe - xs)).filterMap fun x =>
    match readPx raw width x y with
    | some (r, g, b) =>
        if keepPx r g b then some ⟨r, g, b, brightness r g b⟩ else none
    | none => none

/-- The full scan loop of detectHairColorRGB: y over [y1, y2), then each region. -/
def scanPixels (raw : List ℕ) (width y1 y2 : ℕ) (regions : List (ℕ × ℕ)) : List Px :=
  (List.range' y1 (y2 - y1)).flatMap fun y =>
    regions.flatMap fun reg => scanRegionRow raw width y reg.1 reg.2

/-- Sort key used by pixels.sort((a, b) => a.br - b.br). -/
def pxLE (p q : Px) : Prop := p.br ≤ q.br

instance : DecidableRel pxLE := fun p q => inferInstanceAs (Decidable (p.br ≤ q.br))

instance : IsTotal Px pxLE := ⟨fun a b => le_total a.br b.br⟩

instance : IsTrans Px pxLE := ⟨fun _ _ _ h1 h2 => le_trans h1 h2⟩

/-- Math.round(mid.reduce((sum, p) => sum + p.ch, 0) / mid.length). -/
def avgChannel (l : List Px) (f : Px → ℕ) : ℤ :=
  round ((l.map fun p => ((f p : ℚ))).sum / (l.length : ℚ))

/-- The sampler core of detectHairColorRGB, generalized over the scan bounds and
region list (the source hard-codes them from width/height): filter by brightness,
require at least 30 samples, sort by brightness, keep the middle two quartiles,
and average each channel with integer rounding. -/
def detectCore (raw : List ℕ) (width y1 y2 : ℕ) (regions : List (ℕ × ℕ)) : Option RGB :=
  let pixels := scanPixels raw width y1 y2 regions
  if pixels.length < 30 then none
  else
    let sorted := List.insertionSort pxLE pixels
    let s := round ((pixels.length : ℚ) * 0.25)
    let e := round ((pixels.length : ℚ) * 0.75)
    let mid := (sorted.drop s.toNat).take (e.toNat - s.toNat)
    some ⟨avgChannel mid (fun p => p.r), avgChannel mid (fun p => p.g),
          avgChannel mid (fun p => p.b)⟩

/-- detectHairColorRGB(raw, width, height) with its hard-coded fractional bounds. -/
def detectHairColorRGB (raw : List ℕ) (width height : ℕ) : Option RGB :=
  detectCore raw width
    (round ((height : ℚ) * 0.15)).toNat
    (round ((height : ℚ) * 0.40)).toNat
    [((round ((width : ℚ) * 0.02)).toNat, (round ((width : ℚ) * 0.18)).toNat),
     ((round ((width : ℚ) * 0.82)).toNat, (round ((width : ℚ) * 0.98)).toNat)]

/-! Helper lemmas about the sampler. -/

lemma round_mono_q {x y : ℚ} (h : x ≤ y) : round x ≤ round y := by
  rw [round_eq, round_eq]
  exact Int.floor_le_floor (by linarith)

lemma detectCore_eq_none_iff (raw : List ℕ) (width y1 y2 : ℕ)
    (regions : List (ℕ × ℕ)) :
    detectCore raw width y1 y2 regions = none ↔
      (scanPixels raw width y1 y2 regions).length < 30 := by
  unfold detectCore
  by_cases h : (scanPixels raw width y1 y2 regions).length < 30 <;> simp [h]

lemma list_sum_div_le {l : List ℚ} {M : ℚ} (hne : l ≠ []) (h : ∀ x ∈ l, x ≤ M) :
    l.sum / l.length ≤ M := by
  have hlen : 0 < (l.length : ℚ) := by
    exact_mod_cast List.length_pos.mpr hne
  rw [div_le_iff₀ hlen]
  calc l.sum ≤ l.length • M := List.sum_le_card_nsmul l M h
    _ = M * l.length := by rw [nsmul_eq_mul]; ring

lemma le_list_sum_div {l : List ℚ} {m : ℚ} (hne : l ≠ []) (h : ∀ x ∈ l, m ≤ x) :
    m ≤ l.sum / l.length := by
  have hlen : 0 < (l.length : ℚ) := by
    exact_mod_cast List.length_pos.mpr hne
  rw [le_div_iff₀ hlen]
  calc m * l.length = l.length • m := by rw [nsmul_eq_mul]; ring
    _ ≤ l.sum := List.card_nsmul_le_sum l m h

lemma avgChannel_le {l : List Px} {f : Px → ℕ} {M : ℤ} (hne : l ≠ [])
    (h : ∀ p ∈ l, (f p : ℤ) ≤ M) : avgChannel l f ≤ M := by
  have hmap : ∀ x ∈ l.map fun p => ((f p : ℚ)), x ≤ (M : ℚ) := by
    intro x hx
    obtain ⟨p, hp, rfl⟩ := List.mem_map.mp hx
    exact_mod_cast h p hp
  have hle : (l.map fun p => ((f p : ℚ))).sum / ((l.map fun p => ((f p : ℚ))).length) ≤ M :=
    list_sum_div_le (by simpa using hne) hmap
  have : avgChannel l f ≤ round (M : ℚ) := by
    unfold avgChannel
    exact round_mono_q (by simpa using hle)
  simpa [round_intCast] using this

lemma le_avgChannel {l : List Px} {f : Px → ℕ} {m : ℤ} (hne : l ≠ [])
    (h : ∀ p ∈ l, m ≤ (f p : ℤ)) : m ≤ avgChannel l f := by
  have hmap : ∀ x ∈ l.map fun p => ((f p : ℚ)), (m : ℚ) ≤ x := by
    intro x hx
    obtain ⟨p, hp, rfl⟩ := List.mem_map.mp hx
    exact_mod_cast h p hp
  have hle : (m : ℚ) ≤ (l.map fun p => ((f p : ℚ))).sum / ((l.map fun p => ((f p : ℚ))).length) :=
    le_list_sum_div (by simpa using hne) hmap
  have : round (m : ℚ) ≤ avgChannel l f := by
    unfold avgChannel
    exact round_mono_q (by simpa using hle)
  simpa [round_intCast] using this

/-- When the sampler returns a color, its middle-quartile slice is a nonempty
list of scanned pixels and the result is the rounded per-channel mean of it. -/
lemma detectCore_some_structure (raw : List ℕ) (width y1 y2 : ℕ)
    (regions : List (ℕ × ℕ)) (c : RGB)
    (h : detectCore raw width y1 y2 regions = some c) :
    ∃ mid : List Px, mid ≠ [] ∧
      (∀ p ∈ mid, p ∈ scanPixels raw width y1 y2 regions) ∧
      c = ⟨avgChannel mid (fun p => p.r), avgChannel mid (fun p => p.g),
           avgChannel mid (fun p => p.b)⟩ := by
  by_cases hlen : (scanPixels raw width y1 y2 regions).length < 30
  · exact absurd h (by simp [detectCore, hlen])
  · set pixels := scanPixels raw width y1 y2 regions with hpx
    set sorted := List.insertionSort pxLE pixels with hsorted
    set s := round ((pixels.length : ℚ) * 0.25) with hs
    set e := round ((pixels.length : ℚ) * 0.75) with he
    set mid := (sorted.drop s.toNat).take (e.toNat - s.toNat) with hmid
    have hc : c = ⟨avgChannel mid (fun p => p.r), avgChannel mid (fun p => p.g),
                   avgChannel mid (fun p => p.b)⟩ := by
      have := h
      unfold detectCore at this
      rw [if_neg hlen] at this
      simpa [← hpx, ← hsorted, ← hs, ← he, ← hmid] using this.symm
    have hn : (30 : ℚ) ≤ (pixels.length : ℚ) := by
      have := Nat.le_of_not_lt hlen
      exact_mod_cast this
    have hsq : (s : ℚ) ≤ (pixels.length : ℚ) * 0.25 + 1 / 2 := by
      have := abs_sub_round ((pixels.length : ℚ) * 0.25)
      rw [abs_sub_le_iff, ← hs] at this
      linarith [this.2]
    have heq : (pixels.length : ℚ) * 0.75 - 1 / 2 ≤ (e : ℚ) := by
      have := abs_sub_round ((pixels.length : ℚ) * 0.75)
      rw [abs_sub_le_iff, ← he] at this
      linarith [this.1]
    have hs0 : (0 : ℤ) ≤ s := by
      have : ((0 : ℤ) : ℚ) ≤ (s : ℚ) := by
        have := abs_sub_round ((pixels.length : ℚ) * 0.25)
        rw [abs_sub_le_iff, ← hs] at this
        push_cast
        linarith [this.1]
      exact_mod_cast this
    have hse : s + 1 ≤ e := by
      have : (s : ℚ) + 1 ≤ (e : ℚ) := by linarith
      exact_mod_cast this
    have hsn : (s : ℚ) + 1 ≤ (pixels.length : ℚ) := by linarith
    have hsn' : s + 1 ≤ (pixels.length : ℤ) := by exact_mod_cast hsn
    have hlsort : sorted.length = pixels.length :=
      (List.perm_insertionSort pxLE pixels).length_eq
    have hmidne : mid ≠ [] := by
      have hlen_mid : mid.length = min (e.toNat - s.toNat) (sorted.length - s.toNat) := by
        rw [hmid, List.length_take, List.length_drop]
      have h1 : 1 ≤ e.toNat - s.toNat := by omega
      have h2 : 1 ≤ sorted.length - s.toNat := by
        rw [hlsort]; omega
      have : 0 < mid.length := by rw [hlen_mid]; omega
      exact List.length_pos.mp this
    refine ⟨mid, hmidne, ?_, hc⟩
    intro p hp
    have hmem : p ∈ sorted := by
      have h1 : List.Sublist mid (sorted.drop s.toNat) := List.take_sublist _ _
      have h2 : List.Sublist (sorted.drop s.toNat) sorted := List.drop_sublist _ _
      exact (h1.trans h2).subset hp
    rw [hsorted] at hmem
    exact (List.mem_insertionSort pxLE).mp hmem

/-- A 25 x 16 test image for C2: pixels in columns 0..12 have color (50,50,51),
the remaining columns have (51,51,50); every scanned pixel passes the filter. -/
def rawC2 : List ℕ :=
  (List.range (25 * 16 * 3)).map fun i =>
    if i / 3 % 25 < 13 then (if i % 3 = 2 then 51 else 50)
    else (if i % 3 = 2 then 50 else 51)

lemma not_mem_hull_pair :
    ((51 : ℚ), (51 : ℚ), (51 : ℚ)) ∉
      convexHull ℚ {((50 : ℚ), (50 : ℚ), (51 : ℚ)), ((51 : ℚ), (51 : ℚ), (50 : ℚ))} := by
  rw [convexHull_pair]
  rintro ⟨a, b, ha, hb, hab, h⟩
  have h1 : a * 50 + b * 51 = 51 := by
    have := congrArg (fun z => z.1) h
    simpa [smul_eq_mul] using this
  have h3 : a * 51 + b * 50 = 51 := by
    have := congrArg (fun z => z.2.2) h
    simpa [smul_eq_mul] using this
  linarith

set_option maxRecDepth 20000 in
/-- C2 counterexample: on a concrete 25 x 16 image every pixel color is one of
(50,50,51) and (51,51,50), yet the sampler returns (51,51,51), which lies
outside the convex hull of the input pixel colors (independent per-channel
rounding of the mean leaves the hull). -/
theorem C2_counterexample :
    detectHairColorRGB rawC2 25 16 = some ⟨51, 51, 51⟩ ∧
    detectHairColorRGB rawC2 25 16 = detectCore rawC2 25 2 6 [(1, 5), (21, 25)] ∧
    (∀ p ∈ scanPixels rawC2 25 2 6 [(1, 5), (21, 25)],
        ((p.r : ℚ), (p.g : ℚ), (p.b : ℚ)) = ((50 : ℚ), (50 : ℚ), (51 : ℚ)) ∨
        ((p.r : ℚ), (p.g : ℚ), (p.b : ℚ)) = ((51 : ℚ), (51 : ℚ), (50 : ℚ))) ∧
    ((51 : ℚ), (51 : ℚ), (51 : ℚ)) ∉
      convexHull ℚ {((50 : ℚ), (50 : ℚ), (51 : ℚ)), ((51 : ℚ), (51 : ℚ), (50 : ℚ))} := by
  refine ⟨by decide, by decide, by decide, not_mem_hull_pair⟩

/-- C2 (amended): the sampler returns null exactly when fewer than 30 scanned
pixels pass the brightness filter, and a non-null result is bounded per channel
by any per-channel bounds of the kept pixels (per-channel hull, not joint). -/
theorem C2_null_iff_insufficient_and_channel_bounds (raw : List ℕ)
    (width y1 y2 : ℕ) (regions : List (ℕ × ℕ)) :
    (detectCore raw width y1 y2 regions = none ↔
      (scanPixels raw width y1 y2 regions).length < 30) ∧
    (∀ c, detectCore raw width y1 y2 regions = some c →
      ∀ mR MR mG MG mB MB : ℤ,
        (∀ p ∈ scanPixels raw width y1 y2 regions,
            (mR ≤ (p.r : ℤ) ∧ (p.r : ℤ) ≤ MR) ∧ (mG ≤ (p.g : ℤ) ∧ (p.g : ℤ) ≤ MG) ∧
            (mB ≤ (p.b : ℤ) ∧ (p.b : ℤ) ≤ MB)) →
        (mR ≤ c.r ∧ c.r ≤ MR) ∧ (mG ≤ c.g ∧ c.g ≤ MG) ∧ (mB ≤ c.b ∧ c.b ≤ MB)) := by
  refine ⟨detectCore_eq_none_iff raw width y1 y2 regions, ?_⟩
  intro c hc mR MR mG MG mB MB hbounds
  obtain ⟨mid, hne, hmem, rfl⟩ :=
    detectCore_some_structure raw width y1 y2 regions c hc
  refine ⟨⟨le_avgChannel hne ?_, avgChannel_le hne ?_⟩,
          ⟨le_avgChannel hne ?_, avgChannel_le hne ?_⟩,
          ⟨le_avgChannel hne ?_, avgChannel_le hne ?_⟩⟩ <;>
    intro p hp
  · exact ((hbounds p (hmem p hp)).1).1
  · exact ((hbounds p (hmem p hp)).1).2
  · exact ((hbounds p (hmem p hp)).2.1).1
  · exact ((hbounds p (hmem p hp)).2.1).2
  · exact ((hbounds p (hmem p hp)).2.2).1
  · exact ((hbounds p (hmem p hp)).2.2).2

set_option maxRecDepth 20000 in
/-- C2 witness: the amended theorem applied to the concrete 25 x 16 image with
per-channel bounds 50 and 51. -/
theorem C2_amended_witness :
    detectCore rawC2 25 2 6 [(1, 5), (21, 25)] = some ⟨51, 51, 51⟩ ∧
    ((50 ≤ (51 : ℤ) ∧ (51 : ℤ) ≤ 51) ∧ (50 ≤ (51 : ℤ) ∧ (51 : ℤ) ≤ 51) ∧
      (50 ≤ (51 : ℤ) ∧ (51 : ℤ) ≤ 51)) := by
  have hsome : detectCore rawC2 25 2 6 [(1, 5), (21, 25)] = some ⟨51, 51, 51⟩ := by decide
  have hbounds : ∀ p ∈ scanPixels rawC2 25 2 6 [(1, 5), (21, 25)],
      ((50 : ℤ) ≤ (p.r : ℤ) ∧ (p.r : ℤ) ≤ 51) ∧ ((50 : ℤ) ≤ (p.g : ℤ) ∧ (p.g : ℤ) ≤ 51) ∧
      ((50 : ℤ) ≤ (p.b : ℤ) ∧ (p.b : ℤ) ≤ 51) := by decide
  exact ⟨hsome,
    (C2_null_iff_insufficient_and_channel_bounds rawC2 25 2 6 [(1, 5), (21, 25)]).2
      ⟨51, 51, 51⟩ hsome 50 51 50 51 50 51 hbounds⟩

/-- C3 counterexample: a pixel whose brightness is exactly the upper band value
100 is rejected by the code, although the claimed inclusive band keeps it. -/
theorem C3_counterexample :
    keepPx 100 100 100 = false ∧
      (15 : ℚ) ≤ brightness 100 100 100 ∧ brightness 100 100 100 ≤ 100 := by
  refine ⟨by decide, by norm_num [brightness], by norm_num [brightness]⟩

/-- C3 (amended): a scanned pixel is kept if and only if its brightness lies
strictly between 15 and 100 (the band is exclusive, not inclusive). -/
theorem C3_keep_iff_strict_band (r g b : ℕ) :
    keepPx r g b = true ↔ 15 < brightness r g b ∧ brightness r g b < 100 := by
  simp [keepPx]

/-- C4: whenever the sampler returns a non-null color, that color is the
integer-rounded per-channel mean of the middle slice (indices round(n*0.25) up
to round(n*0.75)) of a brightness-ascending sort of the kept pixels. -/
theorem C4_trimmed_mean_structure (raw : List ℕ) (width y1 y2 : ℕ)
    (regions : List (ℕ × ℕ)) (c : RGB)
    (h : detectCore raw width y1 y2 regions = some c) :
    ∃ sorted : List Px,
      sorted.Perm (scanPixels raw width y1 y2 regions) ∧
      sorted.Sorted pxLE ∧
      c = ⟨avgChannel ((sorted.drop
              (round (((scanPixels raw width y1 y2 regions).length : ℚ) * 0.25)).toNat).take
              ((round (((scanPixels raw width y1 y2 regions).length : ℚ) * 0.75)).toNat -
               (round (((scanPixels raw width y1 y2 regions).length : ℚ) * 0.25)).toNat))
            (fun p => p.r),
           avgChannel ((sorted.drop
              (round (((scanPixels raw width y1 y2 regions).length : ℚ) * 0.25)).toNat).take
              ((round (((scanPixels raw width y1 y2 regions).length : ℚ) * 0.75)).toNat -
               (round (((scanPixels raw width y1 y2 regions).length : ℚ) * 0.25)).toNat))
            (fun p => p.g),
           avgChannel ((sorted.drop
              (round (((scanPixels raw width y1 y2 regions).length : ℚ) * 0.25)).toNat).take
              ((round (((scanPixels raw width y1 y2 regions).length : ℚ) * 0.75)).toNat -
               (round (((scanPixels raw width y1 y2 regions).length : ℚ) * 0.25)).toNat))
            (fun p => p.b)⟩ := by
  refine ⟨List.insertionSort pxLE (scanPixels raw width y1 y2 regions),
    List.perm_insertionSort pxLE _, List.sorted_insertionSort pxLE _, ?_⟩
  by_cases hlen : (scanPixels raw width y1 y2 regions).length < 30
  · exact absurd h (by simp [detectCore, hlen])
  · have hth := h
    unfold detectCore at hth
    rw [if_neg hlen] at hth
    simpa using hth.symm

set_option maxRecDepth 20000 in
/-- C4 witness: the trimmed-mean structure instantiated on the concrete
25 x 16 image. -/
theorem C4_witness :
    detectCore rawC2 25 2 6 [(1, 5), (21, 25)] = some ⟨51, 51, 51⟩ ∧
    (∃ sorted : List Px,
      sorted.Perm (scanPixels rawC2 25 2 6 [(1, 5), (21, 25)]) ∧
      sorted.Sorted pxLE ∧
      (⟨51, 51, 51⟩ : RGB) = ⟨avgChannel ((sorted.drop
              (round (((scanPixels rawC2 25 2 6 [(1, 5), (21, 25)]).length : ℚ) * 0.25)).toNat).take
              ((round (((scanPixels rawC2 25 2 6 [(1, 5), (21, 25)]).length : ℚ) * 0.75)).toNat -
               (round (((scanPixels rawC2 25 2 6 [(1, 5), (21, 25)]).length : ℚ) * 0.25)).toNat))
            (fun p => p.r),
           avgChannel ((sorted.drop
              (round (((scanPixels rawC2 25 2 6 [(1, 5), (21, 25)]).length : ℚ) * 0.25)).toNat).take
              ((round (((scanPixels rawC2 25 2 6 [(1, 5), (21, 25)]).length : ℚ) * 0.75)).toNat -
               (round (((scanPixels rawC2 25 2 6 [(1, 5), (21, 25)]).length : ℚ) * 0.25)).toNat))
            (fun p => p.g),
           avgChannel ((sorted.drop
              (round (((scanPixels rawC2 25 2 6 [(1, 5), (21, 25)]).length : ℚ) * 0.25)).toNat).take
              ((round (((scanPixels rawC2 25 2 6 [(1, 5), (21, 25)]).length : ℚ) * 0.75)).toNat -
               (round (((scanPixels rawC2 25 2 6 [(1, 5), (21, 25)]).length : ℚ) * 0.25)).toNat))
            (fun p => p.b)⟩) := by
  have hsome : detectCore rawC2 25 2 6 [(1, 5), (21, 25)] = some ⟨51, 51, 51⟩ := by decide
  exact ⟨hsome, C4_trimmed_mean_structure rawC2 25 2 6 [(1, 5), (21, 25)] ⟨51, 51, 51⟩ hsome⟩

/-! The elliptical alpha compositor (compositeWithEllipse). -/

/-- Ellipse parameters of the compositor: center, radii, fade width. -/
structure EllipseParams where
  cx : ℝ
  cy : ℝ
  rx : ℝ
  ry : ℝ
  fadeWidth : ℝ

/-- Normalized elliptical distance of pixel (x, y), from the source:
dx = (x-cx)/rx, dy = (y-cy)/ry, dist = sqrt(dx*dx + dy*dy). -/
noncomputable def ellipseDist (cx cy rx ry : ℝ) (x y : ℕ) : ℝ :=
  Real.sqrt ((((x : ℝ) - cx) / rx) * (((x : ℝ) - cx) / rx) +
    (((y : ℝ) - cy) / ry) * (((y : ℝ) - cy) / ry))

/-- The blend weight of the source loop: 1 in the ellipse core, 0 outside,
raised-cosine taper in the transition band. -/
noncomputable def aiWeight (fadeWidth dist : ℝ) : ℝ :=
  if dist ≤ 1 - fadeWidth then 1
  else if dist ≥ 1 + fadeWidth then 0
  else 0.5 + 0.5 * Real.cos (Real.pi * ((dist - (1 - fadeWidth)) / (2 * fadeWidth)))

/-- Pixels sampled for color correction: the inner ellipse with the half radii
(dx = (x-cx)/(rx*0.5), dy = (y-cy)/(ry*0.5)), scanned over the whole image,
with the ellipse parameters hard-coded from width/height as in the source. -/
def innerPts (width height : ℕ) : List (ℕ × ℕ) :=
  (List.range height).flatMap fun (y : ℕ) =>
    (List.range width).filterMap fun (x : ℕ) =>
      let cx : ℚ := (width : ℚ) / 2
      let cy : ℚ := (height : ℚ) * 0.20
      let rx : ℚ := (width : ℚ) * 0.38
      let ry : ℚ := (height : ℚ) * 0.23
      let dx : ℚ := ((x : ℚ) - cx) / (rx * 0.5)
      let dy : ℚ := ((y : ℚ) - cy) / (ry * 0.5)
      if dx * dx + dy * dy ≤ 1 then some ((x, y) : ℕ × ℕ) else none

/-- Channel sum of the foreground over the inner sampling ellipse. -/
def innerSum (ai : ℕ → ℕ) (width height : ℕ) (ch : ℕ) : ℚ :=
  ((innerPts width height).map fun p => ((ai ((p.2 * width + p.1) * 3 + ch) : ℚ))).sum

/-- The clamp of the source: Math.min(Math.max(v, 0.8), 1.2). -/
def clampAdj (v : ℚ) : ℚ := min (max v 0.8) 1.2

/-- One channel correction ratio: reference / max(1, foreground mean), clamped. -/
def adjChannel (ref : ℤ) (mean : ℚ) : ℚ := clampAdj ((ref : ℚ) / max 1 mean)

/-- The correction-ratio computation of the source: the ratios stay (1,1,1)
unless a reference color is present and the inner sample is nonempty. -/
def computeAdj (ai : ℕ → ℕ) (width height : ℕ) (origHairRGB : Option RGB) :
    ℚ × ℚ × ℚ :=
  match origHairRGB with
  | none => (1, 1, 1)
  | some ref =>
      if (innerPts width height).length = 0 then (1, 1, 1)
      else
        (adjChannel ref.r (innerSum ai width height 0 / ((innerPts width height).length : ℚ)),
         adjChannel ref.g (innerSum ai width height 1 / ((innerPts width height).length : ℚ)),
         adjChannel ref.b (innerSum ai width height 2 / ((innerPts width height).length : ℚ)))

/-- Per-pixel mid-tone color correction of the source loop: applied only when
the blend weight is positive, a reference color is present, and the foreground
pixel brightness lies strictly between 20 and 220. -/
noncomputable def correctAi (origHairRGB : Option RGB) (adj : ℚ × ℚ × ℚ) (w : ℝ)
    (aR aG aB : ℕ) : ℤ × ℤ × ℤ :=
  if 0 < w ∧ origHairRGB.isSome then
    if 20 < brightness aR aG aB ∧ brightness aR aG aB < 220 then
      (min 255 (round ((aR : ℚ) * adj.1)), min 255 (round ((aG : ℚ) * adj.2.1)),
       min 255 (round ((aB : ℚ) * adj.2.2)))
    else ((aR : ℤ), (aG : ℤ), (aB : ℤ))
  else ((aR : ℤ), (aG : ℤ), (aB : ℤ))

/-- One output pixel of the composite loop: blend the (possibly corrected)
foreground channels into the background channels by the blend weight. -/
noncomputable def compositePixel (originalRaw aiResized : ℕ → ℕ) (width : ℕ)
    (P : EllipseParams) (origHairRGB : Option RGB) (adj : ℚ × ℚ × ℚ) (x y : ℕ) :
    ℤ × ℤ × ℤ :=
  let idx := (y * width + x) * 3
  let w := aiWeight P.fadeWidth (ellipseDist P.cx P.cy P.rx P.ry x y)
  let a := correctAi origHairRGB adj w (aiResized idx) (aiResized (idx + 1))
    (aiResized (idx + 2))
  (round ((a.1 : ℝ) * w + (originalRaw idx : ℝ) * (1 - w)),
   round ((a.2.1 : ℝ) * w + (originalRaw (idx + 1) : ℝ) * (1 - w)),
   round ((a.2.2 : ℝ) * w + (originalRaw (idx + 2) : ℝ) * (1 - w)))

/-- The ellipse parameters hard-coded from width/height in the source. -/
noncomputable def defaultParams (width height : ℕ) : EllipseParams :=
  ⟨(width : ℝ) / 2, (height : ℝ) * 0.20, (width : ℝ) * 0.38, (height : ℝ) * 0.23, 0.35⟩

/-- compositeWithEllipse(original, ai, width, height, origHairRGB) at one
output pixel. -/
noncomputable def compositeWithEllipse (originalRaw aiResized : ℕ → ℕ)
    (width height : ℕ) (origHairRGB : Option RGB) (x y : ℕ) : ℤ × ℤ × ℤ :=
  compositePixel originalRaw aiResized width (defaultParams width height) origHairRGB
    (computeAdj aiResized width height origHairRGB) x y

/-! Helper lemmas about the compositor. -/

lemma round_eq_int_real {x : ℝ} {n : ℤ} (h1 : (n : ℝ) ≤ x + 1 / 2)
    (h2 : x + 1 / 2 < n + 1) : round x = n := by
  rw [round_eq]
  exact Int.floor_eq_iff.mpr ⟨h1, h2⟩

lemma aiWeight_core {fw d : ℝ} (h : d ≤ 1 - fw) : aiWeight fw d = 1 := by
  unfold aiWeight
  rw [if_pos h]

lemma aiWeight_outside {fw d : ℝ} (h0 : 0 < fw) (h : 1 + fw ≤ d) :
    aiWeight fw d = 0 := by
  unfold aiWeight
  rw [if_neg (by linarith), if_pos h]

lemma aiWeight_band {fw d : ℝ} (h1 : 1 - fw < d) (h2 : d < 1 + fw) :
    aiWeight fw d =
      0.5 + 0.5 * Real.cos (Real.pi * ((d - (1 - fw)) / (2 * fw))) := by
  unfold aiWeight
  rw [if_neg (not_le.mpr h1), if_neg (not_le.mpr h2)]

lemma correctAi_none (adj : ℚ × ℚ × ℚ) (w : ℝ) (aR aG aB : ℕ) :
    correctAi none adj w aR aG aB = ((aR : ℤ), (aG : ℤ), (aB : ℤ)) := by
  simp [correctAi]

lemma correctAi_adj_one (o : Option RGB) (w : ℝ) {aR aG aB : ℕ}
    (h1 : aR ≤ 255) (h2 : aG ≤ 255) (h3 : aB ≤ 255) :
    correctAi o (1, 1, 1) w aR aG aB = ((aR : ℤ), (aG : ℤ), (aB : ℤ)) := by
  unfold correctAi
  split
  · split
    · have e1 : min (255 : ℤ) (round ((aR : ℚ) * 1)) = (aR : ℤ) := by
        rw [mul_one, round_natCast]
        exact min_eq_right (by exact_mod_cast h1)
      have e2 : min (255 : ℤ) (round ((aG : ℚ) * 1)) = (aG : ℤ) := by
        rw [mul_one, round_natCast]
        exact min_eq_right (by exact_mod_cast h2)
      have e3 : min (255 : ℤ) (round ((aB : ℚ) * 1)) = (aB : ℤ) := by
        rw [mul_one, round_natCast]
        exact min_eq_right (by exact_mod_cast h3)
      simp only [e1, e2, e3]
    · rfl
  · rfl

/-- The composite with no reference color, written with the correction step
eliminated. -/
lemma compositePixel_none (A Bf : ℕ → ℕ) (width : ℕ) (P : EllipseParams)
    (adj : ℚ × ℚ × ℚ) (x y : ℕ) :
    compositePixel A Bf width P none adj x y =
      (round ((Bf ((y * width + x) * 3) : ℝ) *
          aiWeight P.fadeWidth (ellipseDist P.cx P.cy P.rx P.ry x y) +
          (A ((y * width + x) * 3) : ℝ) *
          (1 - aiWeight P.fadeWidth (ellipseDist P.cx P.cy P.rx P.ry x y))),
       round ((Bf ((y * width + x) * 3 + 1) : ℝ) *
          aiWeight P.fadeWidth (ellipseDist P.cx P.cy P.rx P.ry x y) +
          (A ((y * width + x) * 3 + 1) : ℝ) *
          (1 - aiWeight P.fadeWidth (ellipseDist P.cx P.cy P.rx P.ry x y))),
       round ((Bf ((y * width + x) * 3 + 2) : ℝ) *
          aiWeight P.fadeWidth (ellipseDist P.cx P.cy P.rx P.ry x y) +
          (A ((y * width + x) * 3 + 2) : ℝ) *
          (1 - aiWeight P.fadeWidth (ellipseDist P.cx P.cy P.rx P.ry x y)))) := by
  simp only [compositePixel]
  rw [correctAi_none]
  rfl

lemma ellipseDist_eval {cx cy rx ry : ℝ} {x y : ℕ} {v : ℝ} (hv : 0 ≤ v)
    (h : (((x : ℝ) - cx) / rx) * (((x : ℝ) - cx) / rx) +
         (((y : ℝ) - cy) / ry) * (((y : ℝ) - cy) / ry) = v ^ 2) :
    ellipseDist cx cy rx ry x y = v := by
  unfold ellipseDist
  rw [h, Real.sqrt_sq hv]

/-- C1: with background A and foreground B of identical dimensions, any ellipse
parameters with positive fade width, and no color correction, the composite
equals A bit-for-bit at every pixel with d >= 1+fadeWidth and equals B
bit-for-bit at every pixel with d <= 1-fadeWidth. -/
theorem C1_exact_outside_inside (A B : ℕ → ℕ) (width : ℕ) (P : EllipseParams)
    (adj : ℚ × ℚ × ℚ) (x y : ℕ) (hrx : 0 < P.rx) (hry : 0 < P.ry)
    (hfw : 0 < P.fadeWidth) :
    (1 + P.fadeWidth ≤ ellipseDist P.cx P.cy P.rx P.ry x y →
      compositePixel A B width P none adj x y =
        ((A ((y * width + x) * 3) : ℤ), (A ((y * width + x) * 3 + 1) : ℤ),
         (A ((y * width + x) * 3 + 2) : ℤ))) ∧
    (ellipseDist P.cx P.cy P.rx P.ry x y ≤ 1 - P.fadeWidth →
      compositePixel A B width P none adj x y =
        ((B ((y * width + x) * 3) : ℤ), (B ((y * width + x) * 3 + 1) : ℤ),
         (B ((y * width + x) * 3 + 2) : ℤ))) := by
  constructor
  · intro h
    rw [compositePixel_none, aiWeight_outside hfw h]
    simp [round_natCast]
  · intro h
    rw [compositePixel_none, aiWeight_core h]
    simp [round_natCast]

/-- C1 witness: concrete 100x100 buffers, the hard-coded ellipse, an outside
pixel (50,99) and a core pixel (50,20). -/
theorem C1_witness :
    (0 : ℝ) < 38 ∧ (0 : ℝ) < 23 ∧ (0 : ℝ) < (0.35 : ℝ) ∧
    (1 + (0.35 : ℝ) ≤ ellipseDist 50 20 38 23 50 99 ∧
      compositePixel (fun _ => 128) (fun _ => 200) 100 ⟨50, 20, 38, 23, 0.35⟩
        none (1, 1, 1) 50 99 = (128, 128, 128)) ∧
    (ellipseDist 50 20 38 23 50 20 ≤ 1 - (0.35 : ℝ) ∧
      compositePixel (fun _ => 128) (fun _ => 200) 100 ⟨50, 20, 38, 23, 0.35⟩
        none (1, 1, 1) 50 20 = (200, 200, 200)) := by
  have hd99 : ellipseDist 50 20 38 23 50 99 = 79 / 23 :=
    ellipseDist_eval (by norm_num) (by norm_num)
  have hd20 : ellipseDist 50 20 38 23 50 20 = 0 :=
    ellipseDist_eval le_rfl (by norm_num)
  have h1 : 1 + (0.35 : ℝ) ≤ ellipseDist 50 20 38 23 50 99 := by
    rw [hd99]; norm_num
  have h2 : ellipseDist 50 20 38 23 50 20 ≤ 1 - (0.35 : ℝ) := by
    rw [hd20]; norm_num
  refine ⟨by norm_num, by norm_num, by norm_num, ⟨h1, ?_⟩, ⟨h2, ?_⟩⟩
  · simpa using
      (C1_exact_outside_inside (fun _ => 128) (fun _ => 200) 100
        ⟨50, 20, 38, 23, 0.35⟩ (1, 1, 1) 50 99 (by norm_num) (by norm_num)
        (by norm_num)).1 h1
  · simpa using
      (C1_exact_outside_inside (fun _ => 128) (fun _ => 200) 100
        ⟨50, 20, 38, 23, 0.35⟩ (1, 1, 1) 50 20 (by norm_num) (by norm_num)
        (by norm_num)).2 h2

/-- C7: compositing an image with itself as both background and foreground,
with no correction, returns the image unchanged at every pixel, for any
ellipse parameters with positive radii. -/
theorem C7_idempotent (A : ℕ → ℕ) (width : ℕ) (P : EllipseParams)
    (adj : ℚ × ℚ × ℚ) (x y : ℕ) (hrx : 0 < P.rx) (hry : 0 < P.ry) :
    compositePixel A A width P none adj x y =
      ((A ((y * width + x) * 3) : ℤ), (A ((y * width + x) * 3 + 1) : ℤ),
       (A ((y * width + x) * 3 + 2) : ℤ)) := by
  rw [compositePixel_none]
  set w := aiWeight P.fadeWidth (ellipseDist P.cx P.cy P.rx P.ry x y) with hw
  have key : ∀ a : ℕ, round ((a : ℝ) * w + (a : ℝ) * (1 - w)) = (a : ℤ) := by
    intro a
    rw [show (a : ℝ) * w + (a : ℝ) * (1 - w) = (a : ℝ) by ring]
    exact round_natCast a
  rw [key, key, key]

/-- C7 witness: a constant image, the hard-coded 100x100 ellipse, pixel (10,10). -/
theorem C7_witness :
    (0 : ℝ) < 38 ∧ (0 : ℝ) < 23 ∧
    compositePixel (fun _ => 77) (fun _ => 77) 100 ⟨50, 20, 38, 23, 0.35⟩
      none (1, 1, 1) 10 10 = (77, 77, 77) := by
  refine ⟨by norm_num, by norm_num, ?_⟩
  simpa using C7_idempotent (fun _ => 77) 100 ⟨50, 20, 38, 23, 0.35⟩ (1, 1, 1)
    10 10 (by norm_num) (by norm_num)

lemma aiWeight_eq_cos_on_band {fw d : ℝ} (h0 : 0 < fw)
    (hlo : 1 - fw ≤ d) (hhi : d ≤ 1 + fw) :
    aiWeight fw d = 0.5 + 0.5 * Real.cos (Real.pi * ((d - (1 - fw)) / (2 * fw))) := by
  rcases eq_or_lt_of_le hlo with heq | hgt
  · rw [← heq, aiWeight_core le_rfl, sub_self, zero_div, mul_zero, Real.cos_zero]
    norm_num
  · rcases eq_or_lt_of_le hhi with heq2 | hlt2
    · rw [heq2, aiWeight_outside h0 le_rfl]
      have harg : Real.pi * ((1 + fw - (1 - fw)) / (2 * fw)) = Real.pi := by
        rw [show (1 + fw - (1 - fw)) = 2 * fw by ring, div_self (by linarith)]
        ring
      rw [harg, Real.cos_pi]
      norm_num
    · rw [aiWeight_band hgt hlt2]

/-- C5: for fadeWidth in (0,1) the blend weight is continuous on the closed
transition band, monotonically non-increasing there, with value 1 at the inner
edge d = 1-fadeWidth and 0 at the outer edge d = 1+fadeWidth. -/
theorem C5_blend_weight_profile (fw : ℝ) (h0 : 0 < fw) (h1 : fw < 1) :
    ContinuousOn (aiWeight fw) (Set.Icc (1 - fw) (1 + fw)) ∧
    AntitoneOn (aiWeight fw) (Set.Icc (1 - fw) (1 + fw)) ∧
    aiWeight fw (1 - fw) = 1 ∧ aiWeight fw (1 + fw) = 0 := by
  have hcong : Set.EqOn (aiWeight fw)
      (fun d => 0.5 + 0.5 * Real.cos (Real.pi * ((d - (1 - fw)) / (2 * fw))))
      (Set.Icc (1 - fw) (1 + fw)) :=
    fun d hd => aiWeight_eq_cos_on_band h0 hd.1 hd.2
  refine ⟨?_, ?_, aiWeight_core le_rfl, aiWeight_outside h0 le_rfl⟩
  · have hgc : Continuous
        (fun d : ℝ => 0.5 + 0.5 * Real.cos (Real.pi * ((d - (1 - fw)) / (2 * fw)))) := by
      fun_prop
    exact hgc.continuousOn.congr hcong
  · intro d1 hd1 d2 hd2 h12
    rw [aiWeight_eq_cos_on_band h0 hd1.1 hd1.2, aiWeight_eq_cos_on_band h0 hd2.1 hd2.2]
    have key : Real.cos (Real.pi * ((d2 - (1 - fw)) / (2 * fw))) ≤
        Real.cos (Real.pi * ((d1 - (1 - fw)) / (2 * fw))) := by
      apply Real.cos_le_cos_of_nonneg_of_le_pi
      · exact mul_nonneg Real.pi_pos.le
          (div_nonneg (by linarith [hd1.1]) (by linarith))
      · have ht2 : (d2 - (1 - fw)) / (2 * fw) ≤ 1 := by
          rw [div_le_one (by linarith)]
          linarith [hd2.2]
        calc Real.pi * ((d2 - (1 - fw)) / (2 * fw)) ≤ Real.pi * 1 :=
              mul_le_mul_of_nonneg_left ht2 Real.pi_pos.le
          _ = Real.pi := mul_one _
      · exact mul_le_mul_of_nonneg_left
          ((div_le_div_iff_of_pos_right (by linarith)).mpr (by linarith)) Real.pi_pos.le
    linarith

/-- C5 witness: the profile at the implementation fade width 0.35. -/
theorem C5_witness :
    (0 : ℝ) < 0.35 ∧ (0.35 : ℝ) < 1 ∧
    (ContinuousOn (aiWeight 0.35) (Set.Icc (1 - 0.35) (1 + 0.35)) ∧
     AntitoneOn (aiWeight 0.35) (Set.Icc (1 - 0.35) (1 + 0.35)) ∧
     aiWeight 0.35 (1 - 0.35) = 1 ∧ aiWeight 0.35 (1 + 0.35) = 0) :=
  ⟨by norm_num, by norm_num,
    C5_blend_weight_profile 0.35 (by norm_num) (by norm_num)⟩

/-- C6: each channel correction ratio is reference / max(1, foreground mean)
clamped to [0.8, 1.2], and every ratio triple computed by the compositor lies
within [0.8, 1.2] no matter how the reference and foreground colors differ. -/
theorem C6_ratio_clamped :
    (∀ (c : ℤ) (m : ℚ), adjChannel c m = min (max ((c : ℚ) / max 1 m) 0.8) 1.2) ∧
    (∀ (ai : ℕ → ℕ) (width height : ℕ) (o : Option RGB),
      ((0.8 : ℚ) ≤ (computeAdj ai width height o).1 ∧
        (computeAdj ai width height o).1 ≤ 1.2) ∧
      ((0.8 : ℚ) ≤ (computeAdj ai width height o).2.1 ∧
        (computeAdj ai width height o).2.1 ≤ 1.2) ∧
      ((0.8 : ℚ) ≤ (computeAdj ai width height o).2.2 ∧
        (computeAdj ai width height o).2.2 ≤ 1.2)) := by
  have hb : ∀ v : ℚ, (0.8 : ℚ) ≤ clampAdj v ∧ clampAdj v ≤ 1.2 := by
    intro v
    unfold clampAdj
    exact ⟨le_min (le_max_right v 0.8) (by norm_num), min_le_right _ _⟩
  constructor
  · intro c m; rfl
  · intro ai width height o
    rcases o with _ | ref
    · norm_num [computeAdj]
    · by_cases hc : (innerPts width height).length = 0
      · norm_num [computeAdj, hc]
      · simp only [computeAdj, if_neg hc]
        exact ⟨hb _, hb _, hb _⟩

/-- C10: when correction is requested but the inner sampling ellipse contains
no image pixels, the ratios remain (1,1,1) and the composite blends the
foreground exactly as the no-correction composite at every pixel. -/
theorem C10_empty_inner_sample (orig ai : ℕ → ℕ) (width height : ℕ) (ref : RGB)
    (hcount : (innerPts width height).length = 0) (hbyte : ∀ i, ai i ≤ 255) :
    computeAdj ai width height (some ref) = (1, 1, 1) ∧
    ∀ x y, compositeWithEllipse orig ai width height (some ref) x y =
      compositeWithEllipse orig ai width height none x y := by
  have hadj : computeAdj ai width height (some ref) = (1, 1, 1) := by
    simp [computeAdj, hcount]
  refine ⟨hadj, ?_⟩
  intro x y
  unfold compositeWithEllipse
  rw [hadj]
  have hnone : computeAdj ai width height none = (1, 1, 1) := rfl
  rw [hnone]
  simp only [compositePixel]
  rw [correctAi_adj_one _ _ (hbyte _) (hbyte _) (hbyte _), correctAi_none]

/-- C10 witness: a 1x1 image, whose inner sampling ellipse covers no pixel. -/
theorem C10_witness :
    (innerPts 1 1).length = 0 ∧ (∀ i : ℕ, (fun _ : ℕ => 0) i ≤ 255) ∧
    (computeAdj (fun _ => 0) 1 1 (some ⟨0, 0, 0⟩) = (1, 1, 1) ∧
     ∀ x y, compositeWithEllipse (fun _ => 0) (fun _ => 0) 1 1 (some ⟨0, 0, 0⟩) x y =
       compositeWithEllipse (fun _ => 0) (fun _ => 0) 1 1 none x y) := by
  have hc : (innerPts 1 1).length = 0 := by decide
  exact ⟨hc, fun _ => Nat.zero_le 255,
    C10_empty_inner_sample (fun _ => 0) (fun _ => 0) 1 1 ⟨0, 0, 0⟩ hc
      (fun _ => Nat.zero_le 255)⟩

/-- All-gray (128,128,128) background buffer of the end-to-end scenario. -/
def grayBuf : ℕ → ℕ := fun _ => 128

/-- All-red (200,50,50) foreground buffer of the end-to-end scenario. -/
def redBuf : ℕ → ℕ := fun i => if i % 3 = 0 then 200 else 50

lemma C8aux_pixel_deep : compositePixel grayBuf redBuf 100 ⟨50, 20, 38, 23, 0.35⟩
    none (1, 1, 1) 50 5 = (200, 50, 50) := by
  have hd : ellipseDist 50 20 38 23 50 5 = 15 / 23 :=
    ellipseDist_eval (by norm_num) (by norm_num)
  have hθ0 : (0 : ℝ) ≤ Real.pi * (1 / 322) := by positivity
  have hθle : Real.pi * (1 / 322) ≤ 1 / 100 := by
    have hpi := Real.pi_lt_d2
    nlinarith
  have hcos1 : Real.cos (Real.pi * (1 / 322)) ≤ 1 := Real.cos_le_one _
  have hcos0 : 1 - (Real.pi * (1 / 322)) ^ 2 / 2 ≤ Real.cos (Real.pi * (1 / 322)) :=
    Real.one_sub_sq_div_two_le_cos
  have hcoslo : 1 - 1 / 10000 ≤ Real.cos (Real.pi * (1 / 322)) := by nlinarith
  have hw : aiWeight (0.35 : ℝ) (ellipseDist 50 20 38 23 50 5) =
      0.5 + 0.5 * Real.cos (Real.pi * (1 / 322)) := by
    rw [hd, aiWeight_band (by norm_num) (by norm_num),
      show ((15 / 23 : ℝ) - (1 - 0.35)) / (2 * 0.35) = 1 / 322 by norm_num]
  rw [compositePixel_none]
  dsimp only
  rw [hw]
  simp only [grayBuf, redBuf]
  rw [Prod.mk.injEq, Prod.mk.injEq]
  refine ⟨?_, ?_, ?_⟩ <;>
  · norm_num
    apply round_eq_int_real <;> nlinarith

lemma C8aux_pixel_far : compositePixel grayBuf redBuf 100 ⟨50, 20, 38, 23, 0.35⟩
    none (1, 1, 1) 50 99 = (128, 128, 128) := by
  have hd : ellipseDist 50 20 38 23 50 99 = 79 / 23 :=
    ellipseDist_eval (by norm_num) (by norm_num)
  have hw : aiWeight (0.35 : ℝ) (ellipseDist 50 20 38 23 50 99) = 0 := by
    rw [hd]
    exact aiWeight_outside (by norm_num) (by norm_num)
  rw [compositePixel_none]
  dsimp only
  rw [hw]
  simp only [grayBuf, redBuf]
  norm_num [Prod.mk.injEq]

lemma C8aux_pixel_band : compositePixel grayBuf redBuf 100 ⟨50, 20, 38, 23, 0.35⟩
    none (1, 1, 1) 88 20 = (164, 89, 89) := by
  have hd : ellipseDist 50 20 38 23 88 20 = 1 :=
    ellipseDist_eval (by norm_num) (by norm_num)
  have hw : aiWeight (0.35 : ℝ) (ellipseDist 50 20 38 23 88 20) = 0.5 := by
    rw [hd, aiWeight_band (by norm_num) (by norm_num),
      show ((1 : ℝ) - (1 - 0.35)) / (2 * 0.35) = 1 / 2 by norm_num,
      show Real.pi * (1 / 2 : ℝ) = Real.pi / 2 by ring, Real.cos_pi_div_two]
    norm_num
  rw [compositePixel_none]
  dsimp only
  rw [hw]
  simp only [grayBuf, redBuf]
  norm_num [Prod.mk.injEq]

lemma C8aux_composite_eq (x y : ℕ) :
    compositeWithEllipse grayBuf redBuf 100 100 none x y =
      compositePixel grayBuf redBuf 100 ⟨50, 20, 38, 23, 0.35⟩ none (1, 1, 1) x y := by
  have hP : defaultParams 100 100 = ⟨50, 20, 38, 23, 0.35⟩ := by
    unfold defaultParams
    congr 1 <;> norm_num
  have hadj : computeAdj redBuf 100 100 none = (1, 1, 1) := rfl
  unfold compositeWithEllipse
  rw [hP, hadj]

/-- C8: the end-to-end scenario of the spec on a 100x100 gray background and
red foreground with the hard-coded ellipse (center (50,20), rx=38, ry=23,
fadeWidth=0.35) and no correction: pixel (50,5) deep inside gives the
foreground (200,50,50); pixel (50,99) far outside gives the background
(128,128,128); pixel (88,20) in the transition band gives (164,89,89), a value
strictly between background and foreground on every channel, matching the
closed-form cosine formula (weight 1/2 at d = 1). -/
theorem C8_end_to_end :
    compositeWithEllipse grayBuf redBuf 100 100 none 50 5 = (200, 50, 50) ∧
    compositeWithEllipse grayBuf redBuf 100 100 none 50 99 = (128, 128, 128) ∧
    (compositeWithEllipse grayBuf redBuf 100 100 none 88 20 = (164, 89, 89) ∧
      ((128 : ℤ) < 164 ∧ (164 : ℤ) < 200) ∧ ((50 : ℤ) < 89 ∧ (89 : ℤ) < 128)) := by
  refine ⟨?_, ?_, ⟨?_, ⟨by norm_num, by norm_num⟩, ⟨by norm_num, by norm_num⟩⟩⟩
  · rw [C8aux_composite_eq]
    exact C8aux_pixel_deep
  · rw [C8aux_composite_eq]
    exact C8aux_pixel_far
  · rw [C8aux_composite_eq]
    exact C8aux_pixel_band

/-- A 10 x 10 all-60 image (10 * 10 * 3 bytes), used to refute C9 as stated. -/
def raw60 : List ℕ := List.replicate (10 * 10 * 3) 60

set_option maxRecDepth 20000 in
/-- C9 counterexample: on the 10-pixel-wide image raw60, the region
x in [10, 20) resolves entirely outside the image width, yet through the flat
indexing (y * width + x) * 3 it wraps into later rows: already on row 0 it
contributes 10 samples (not zero), and scanning it over rows 0..3 makes the
sampler return the non-null color (60,60,60) instead of the null
"insufficient data" result. -/
theorem C9_counterexample :
    List.length raw60 = 10 * 10 * 3 ∧
    (∀ x ∈ List.range' 10 (20 - 10), 10 ≤ x) ∧
    (scanRegionRow raw60 10 0 10 20).length = 10 ∧
    detectCore raw60 10 0 4 [(10, 20)] = some ⟨60, 60, 60⟩ := by
  refine ⟨by decide, by decide, by decide, by decide⟩

/-- C9 (amended): degenerate scans degrade gracefully: a region with empty
pixel bounds contributes no samples, a pixel read past the end of the buffer
yields nothing, a region whose flat indices all lie past the buffer end
contributes no samples, and a scan that keeps no pixel makes the sampler
return null rather than fail.  (A region that exceeds the image width while
its flat indices stay within the buffer is not degenerate in this sense: it
wraps into later rows and contributes samples, per the counterexample.) -/
theorem C9_degenerate_regions_graceful :
    (∀ (raw : List ℕ) (width y xs xe : ℕ), xe ≤ xs →
      scanRegionRow raw width y xs xe = []) ∧
    (∀ (raw : List ℕ) (width x y : ℕ), raw.length ≤ (y * width + x) * 3 →
      readPx raw width x y = none) ∧
    (∀ (raw : List ℕ) (width y xs xe : ℕ),
      (∀ x, xs ≤ x → x < xe → raw.length ≤ (y * width + x) * 3) →
      scanRegionRow raw width y xs xe = []) ∧
    (∀ (raw : List ℕ) (width y1 y2 : ℕ) (regions : List (ℕ × ℕ)),
      scanPixels raw width y1 y2 regions = [] →
      detectCore raw width y1 y2 regions = none) := by
  have hreadnone : ∀ (raw : List ℕ) (width x y : ℕ),
      raw.length ≤ (y * width + x) * 3 → readPx raw width x y = none := by
    intro raw width x y h
    simp only [readPx]
    rw [List.get?_eq_none.mpr h]
  refine ⟨?_, hreadnone, ?_, ?_⟩
  · intro raw width y xs xe h
    unfold scanRegionRow
    rw [Nat.sub_eq_zero_of_le h]
    rfl
  · intro raw width y xs xe h
    unfold scanRegionRow
    rw [List.filterMap_eq_nil_iff]
    intro x hx
    have hmem := List.mem_range'_1.mp hx
    have hxe : xs ≤ x ∧ x < xe := ⟨hmem.1, by omega⟩
    rw [hreadnone raw width x y (h x hxe.1 hxe.2)]
  · intro raw width y1 y2 regions h
    rw [detectCore_eq_none_iff, h]
    norm_num

/-- C9 witness: an empty-bounds region, a read from an empty buffer, and an
empty scan of an empty buffer, each degrading gracefully. -/
theorem C9_witness :
    ((1 : ℕ) ≤ 1 ∧ scanRegionRow [] 5 0 1 1 = []) ∧
    (List.length ([] : List ℕ) ≤ (0 * 5 + 0) * 3 ∧ readPx [] 5 0 0 = none) ∧
    ((∀ x : ℕ, 0 ≤ x → x < 3 → List.length ([42] : List ℕ) ≤ (2 * 5 + x) * 3) ∧
      scanRegionRow [42] 5 2 0 3 = []) ∧
    (scanPixels [] 5 0 2 [(0, 0)] = [] ∧ detectCore [] 5 0 2 [(0, 0)] = none) := by
  have h3 : scanPixels [] 5 0 2 [(0, 0)] = [] := by decide
  have hoob : ∀ x : ℕ, 0 ≤ x → x < 3 → List.length ([42] : List ℕ) ≤ (2 * 5 + x) * 3 := by
    intro x _ _
    simp only [List.length_singleton]
    omega
  exact ⟨⟨le_refl 1, C9_degenerate_regions_graceful.1 [] 5 0 1 1 (le_refl 1)⟩,
    ⟨Nat.zero_le _, C9_degenerate_regions_graceful.2.1 [] 5 0 0 (Nat.zero_le _)⟩,
    ⟨hoob, C9_degenerate_regions_graceful.2.2.1 [42] 5 2 0 3 hoob⟩,
    ⟨h3, C9_degenerate_regions_graceful.2.2.2 [] 5 0 2 [(0, 0)] h3⟩⟩

end Follica
